import Mathlib

set_option maxRecDepth 4000

/-!
Verification of the tuno-vpn tunnel engine core against its specification.

The Go sources are shallowly embedded: packet buffers are `List Nat` of byte
values, in-place mutation becomes functional update (`List.set`), Go `uint16`
arithmetic is `Nat` arithmetic with explicit `% 65536`, and fallible
operations return `Except`.  Offsets, branch structure and arithmetic follow
`internal/tunnel/packet.go`, `internal/tunnel/router.go`,
`internal/tunnel/client.go` and `internal/cipher` line by line.
-/

namespace Tuno

instance {ε α : Type} [DecidableEq ε] [DecidableEq α] : DecidableEq (Except ε α) :=
  fun x y =>
    match x, y with
    | .ok a, .ok b => decidable_of_iff (a = b) (by simp)
    | .error a, .error b => decidable_of_iff (a = b) (by simp)
    | .ok _, .error _ => isFalse (by simp)
    | .error _, .ok _ => isFalse (by simp)

/-- Read byte `i` of a buffer (Go indexing; all reads in the embedded code are
guarded by the length checks the source performs before indexing). -/
def byteAt (d : List Nat) (i : Nat) : Nat := d.getD i 0

/-- `binary.BigEndian.Uint16(d[i:i+2])`. -/
def word16 (d : List Nat) (i : Nat) : Nat := 256 * byteAt d i + byteAt d (i + 1)

/-- `binary.BigEndian.PutUint16(d[i:i+2], v)` for `v < 65536`. -/
def put16 (d : List Nat) (i v : Nat) : List Nat :=
  (d.set i (v / 256 % 256)).set (i + 1) (v % 256)

/-- `d[a:b]` as a fresh list of bytes. -/
def sliceBytes (d : List Nat) (a b : Nat) : List Nat := (d.drop a).take (b - a)

/-- `PacketType` from packet.go. -/
inductive PacketType
  | ipv4
  | ipv6
  | unknown
deriving DecidableEq, Repr

/-- `Packet` from packet.go: raw data plus the fields extracted at parse time. -/
structure Packet where
  data : List Nat
  -- address bytes; Go stores the parsed v4 addresses in `net.IP` 16-byte
  -- form, but only the address value is ever compared or written back
  source : List Nat
  destination : List Nat
  protocol : Nat
  typ : PacketType
deriving DecidableEq, Repr

/-- The distinct error exits of `ParsePacket` / `parseIPv4Packet` /
`parseIPv6Packet` (the Go code returns distinct `fmt.Errorf` strings). -/
inductive ParseError
  | tooShort
  | v4TooShort
  | v4HeaderParse
  | v6TooShort
  | unsupportedVersion
deriving DecidableEq, Repr

/-- `parseIPv4Packet` from packet.go.  `ipv4.HeaderLen = 20`; the embedded
`ipv4.ParseHeader` (golang.org/x/net/ipv4) fails when the buffer is shorter
than 20 bytes or shorter than the header length declared in the IHL nibble,
and otherwise extracts the fields without further validation. -/
def parseIPv4Packet (data : List Nat) : Except ParseError Packet :=
  if data.length < 20 then .error .v4TooShort
  else if data.length < byteAt data 0 % 16 * 4 then .error .v4HeaderParse
  else .ok { data := data, source := sliceBytes data 12 16,
             destination := sliceBytes data 16 20,
             protocol := byteAt data 9, typ := .ipv4 }

/-- `parseIPv6Packet` from packet.go.  `ipv6.HeaderLen = 40`; the embedded
`ipv6.ParseHeader` (golang.org/x/net/ipv6) has no failure mode beyond the
length check. -/
def parseIPv6Packet (data : List Nat) : Except ParseError Packet :=
  if data.length < 40 then .error .v6TooShort
  else .ok { data := data, source := sliceBytes data 8 24,
             destination := sliceBytes data 24 40,
             protocol := byteAt data 6, typ := .ipv6 }

/-- `ParsePacket` from packet.go. -/
def ParsePacket (data : List Nat) : Except ParseError Packet :=
  if data.length < 1 then .error .tooShort
  else
    let version := byteAt data 0 >>> 4 &&& 0x0F
    if version = 4 then parseIPv4Packet data
    else if version = 6 then parseIPv6Packet data
    else .error .unsupportedVersion

/-- One iteration bound for the end-around-carry loop: each pass strictly
decreases the accumulator, so `s` itself is enough fuel. -/
def onesFoldAux : Nat → Nat → Nat
  | 0, s => s
  | fuel + 1, s => if s ≤ 65535 then s else onesFoldAux fuel (s % 65536 + s / 65536)

/-- End-around-carry fold of a one's-complement accumulator: the loop
`while acc > 0xFFFF { acc = (acc & 0xFFFF) + (acc >> 16) }` of the standard
internet-checksum algorithm (the independent full recomputation the spec
measures against; not in the Go source, which only updates incrementally). -/
def onesFold (s : Nat) : Nat := onesFoldAux s s

/-- Sum of the first `n` big-endian 16-bit words of a buffer. -/
def sumWords (d : List Nat) : Nat → Nat
  | 0 => 0
  | n + 1 => sumWords d n + word16 d (2 * n)

/-- Header length in bytes declared by the IHL nibble of an IPv4 header. -/
def ihlBytes (d : List Nat) : Nat := byteAt d 0 % 16 * 4

/-- Independent full recomputation of the IPv4 header checksum: zero the
checksum field (offsets 10-11), one's-complement-sum every 16-bit word of the
header, fold carries, complement. -/
def ipv4RecomputeChecksum (d : List Nat) : Nat :=
  65535 - onesFold (sumWords ((d.set 10 0).set 11 0) (ihlBytes d / 2))

/-- One's-complement verification of an IPv4 header: summing all header words,
checksum field included, folds to 0xFFFF. -/
def ipv4ChecksumValid (d : List Nat) : Prop :=
  onesFold (sumWords d (ihlBytes d / 2)) = 65535

instance (d : List Nat) : Decidable (ipv4ChecksumValid d) := by
  unfold ipv4ChecksumValid; infer_instance

/-- `Packet.ModifyTTL` from packet.go, returning the Go boolean together with
the mutated packet (in Go the mutation is in place). -/
def Packet.ModifyTTL (p : Packet) : Bool × Packet :=
  match p.typ with
  | .ipv4 =>
    if byteAt p.data 8 ≤ 1 then (false, p)
    else
      let d1 := p.data.set 8 (byteAt p.data 8 - 1)
      let c0 := (word16 d1 10 + 0x0100) % 65536
      let c1 := if c0 ≤ 0x00FF then c0 + 1 else c0
      (true, { p with data := put16 d1 10 c1 })
  | .ipv6 =>
    if byteAt p.data 7 ≤ 1 then (false, p)
    else (true, { p with data := p.data.set 7 (byteAt p.data 7 - 1) })
  | .unknown => (false, p)

/-- The error exits of `Packet.ReplaceSourceAddress` /
`Packet.ReplaceDestinationAddress`. -/
inductive AddrError
  | invalidV4Address
  | invalidV6Address
  | unsupportedType
deriving DecidableEq, Repr

/-- `copy(d[off:off+len(src)], src)` when the destination window is at least
`len(src)` bytes (true at every call site below, where lengths are checked
first). -/
def copyInto (d : List Nat) (off : Nat) : List Nat → List Nat
  | [] => d
  | b :: rest => copyInto (d.set off b) (off + 1) rest

/-- The adjustment loop of `recalculateIPv4Checksum`, indexed by iteration
count: iteration `k` of
`for i := 0; i < len(oldAddr); i += 2 { adjustment += old word; adjustment += new word ^ 0xFFFF }`
reads the words at byte offset `i = 2*k`, and the loop performs
`⌈len(oldAddr)/2⌉` iterations. -/
def adjustmentWords (oldAddr newAddr : List Nat) : Nat → Nat
  | 0 => 0
  | k + 1 =>
    adjustmentWords oldAddr newAddr k +
      (word16 oldAddr (2 * k) + (word16 newAddr (2 * k) ^^^ 0xFFFF))

/-- `recalculateIPv4Checksum` from packet.go: fold the adjustment once, add it
to the old checksum, truncate to `uint16`, and write it back at offset 10-11. -/
def recalculateIPv4Checksum (packet oldAddr newAddr : List Nat) : List Nat :=
  let oldChecksum := word16 packet 10
  let adjustment := adjustmentWords oldAddr newAddr ((oldAddr.length + 1) / 2)
  let adjustment := adjustment % 65536 + adjustment / 65536
  let newChecksum := (adjustment + oldChecksum) % 65536
  put16 packet 10 newChecksum

/-- `Packet.ReplaceSourceAddress` from packet.go, returning the Go error
result together with the (possibly mutated) packet. -/
def Packet.ReplaceSourceAddress (p : Packet) (newSource : List Nat) :
    Except AddrError Unit × Packet :=
  match p.typ with
  | .ipv4 =>
    if newSource.length ≠ 4 then (.error .invalidV4Address, p)
    else
      let oldSource := sliceBytes p.data 12 16
      let d1 := copyInto p.data 12 newSource
      let d2 := recalculateIPv4Checksum d1 oldSource newSource
      (.ok (), { p with data := d2, source := newSource })
  | .ipv6 =>
    if newSource.length ≠ 16 then (.error .invalidV6Address, p)
    else (.ok (), { p with data := copyInto p.data 8 newSource, source := newSource })
  | .unknown => (.error .unsupportedType, p)

/-- `Packet.ReplaceDestinationAddress` from packet.go. -/
def Packet.ReplaceDestinationAddress (p : Packet) (newDest : List Nat) :
    Except AddrError Unit × Packet :=
  match p.typ with
  | .ipv4 =>
    if newDest.length ≠ 4 then (.error .invalidV4Address, p)
    else
      let oldDest := sliceBytes p.data 16 20
      let d1 := copyInto p.data 16 newDest
      let d2 := recalculateIPv4Checksum d1 oldDest newDest
      (.ok (), { p with data := d2, destination := newDest })
  | .ipv6 =>
    if newDest.length ≠ 16 then (.error .invalidV6Address, p)
    else (.ok (), { p with data := copyInto p.data 24 newDest, destination := newDest })
  | .unknown => (.error .unsupportedType, p)

/-! ## Routing table (internal/tunnel/router.go)

`net.ParseCIDR` canonicalises a CIDR to a masked network address (4 bytes for
IPv4, 16 for IPv6) plus a contiguous mask of `ones` bits, and `IPNet.String()`
renders exactly that pair, so route identity (`route.Network.String() ==
network.String()`) is structural equality of the pair. -/

/-- A parsed `*net.IPNet`: masked network address bytes plus mask length. -/
structure IPNet where
  ip : List Nat
  ones : Nat
deriving DecidableEq, Repr

/-- `net.CIDRMask(ones, 8*nbytes)` as a byte list. -/
def cidrMaskBytes (ones nbytes : Nat) : List Nat :=
  (List.range nbytes).map (fun j => 256 - 2 ^ (8 - min (ones - 8 * j) 8))

/-- `net.IP.To4()`: a 4-byte address is returned as is, a 16-byte
IPv4-in-IPv6 address (`::ffff:a.b.c.d`) is shortened, anything else is nil. -/
def to4 (ip : List Nat) : Option (List Nat) :=
  if ip.length = 4 then some ip
  else if ip.length = 16 ∧ (ip.take 10).all (· == 0) = true ∧
         byteAt ip 10 = 255 ∧ byteAt ip 11 = 255 then some (ip.drop 12)
  else none

/-- `(*net.IPNet).Contains(ip)`: canonicalise the address with `To4`, require
equal lengths, then compare all address bytes under the mask. -/
def IPNet.Contains (n : IPNet) (ip : List Nat) : Bool :=
  let ip4 := match to4 ip with | some x => x | none => ip
  if ip4.length ≠ n.ip.length then false
  else
    let m := cidrMaskBytes n.ones n.ip.length
    (List.range n.ip.length).all
      (fun i => byteAt n.ip i &&& byteAt m i == byteAt ip4 i &&& byteAt m i)

/-- `RouteType` from router.go. -/
inductive RouteType
  | tun
  | internet
  | drop
deriving DecidableEq, Repr

/-- `Route` from router.go. -/
structure Route where
  network : IPNet
  typ : RouteType
deriving DecidableEq, Repr

/-- `Router.AddRoute` body (post `ParseCIDR`): replace the classification of
the first route with an equal network, else append a new route. -/
def addRouteList (routes : List Route) (n : IPNet) (t : RouteType) : List Route :=
  match routes with
  | [] => [{ network := n, typ := t }]
  | r :: rest =>
    if r.network = n then { r with typ := t } :: rest
    else r :: addRouteList rest n t

/-- `Router.RemoveRoute` body (post `ParseCIDR`): find the first route with an
equal network, overwrite it with the last entry, truncate by one; `none` when
the route is not found (`route not found` error). -/
def removeRouteList (routes : List Route) (n : IPNet) : Option (List Route) :=
  match routes.findIdx? (fun r => r.network == n) with
  | none => none
  | some i =>
    some ((routes.set i (routes.getLastD { network := n, typ := .internet })).dropLast)

/-- The scan of `Router.GetRoute`, carrying `matchedRoute`/`matchedMaskSize`
(`maskSize, _ := route.Network.Mask.Size()` is `ones` for a CIDR mask). -/
def getRouteLoop (ip : List Nat) : List Route → Option (Route × Nat) → RouteType
  | [], matched =>
    match matched with
    | some m => m.1.typ
    | none => .internet
  | r :: rest, matched =>
    if r.network.Contains ip then
      match matched with
      | none => getRouteLoop ip rest (some (r, r.network.ones))
      | some m =>
        if r.network.ones > m.2 then getRouteLoop ip rest (some (r, r.network.ones))
        else getRouteLoop ip rest (some m)
    else getRouteLoop ip rest matched

/-- `Router.GetRoute` from router.go. -/
def GetRoute (routes : List Route) (ip : List Nat) : RouteType :=
  getRouteLoop ip routes none

/-- Modelled from the spec: the longest-prefix-match winner among a list of
already-matching routes — "keep the one with the largest mask length; ties
... the first-scanned wins". -/
def lpmBest : List Route → Option Route
  | [] => none
  | r :: rest =>
    match lpmBest rest with
    | none => some r
    | some b => if b.network.ones > r.network.ones then some b else some r

/-- Modelled from the spec: `classify(address)` — "scan all entries whose
prefix contains the address" and apply `lpmBest`; "No match → default
`ViaInternet`". -/
def classifySpec (routes : List Route) (ip : List Nat) : RouteType :=
  match lpmBest (routes.filter (fun r => r.network.Contains ip)) with
  | none => .internet
  | some r => r.typ

/-- A route-table mutation, as exercised by claim C5. -/
inductive RouterOp
  | add (n : IPNet) (t : RouteType)
  | remove (n : IPNet)
deriving DecidableEq, Repr

/-- Apply one mutation; a failed `RemoveRoute` leaves the table unchanged. -/
def applyOp (routes : List Route) : RouterOp → List Route
  | .add n t => addRouteList routes n t
  | .remove n =>
    match removeRouteList routes n with
    | some l => l
    | none => routes

/-- Apply a sequence of mutations in order. -/
def applyOps (ops : List RouterOp) (routes : List Route) : List Route :=
  ops.foldl applyOp routes

/-! ## Client reconnection loop (internal/tunnel/client.go) -/

/-- The reconnect-relevant client state: `c.retries` and `c.isRunning`
(`retries` and `MaxRetries` are Go `int`s). -/
structure ClientLoopState where
  retries : Int
  isRunning : Bool
deriving DecidableEq, Repr

/-- Outcome of the failure branch of `runMainLoop`. -/
inductive FailDecision
  | gaveUp (s : ClientLoopState)
  | willRetry (s : ClientLoopState)
deriving DecidableEq, Repr

/-- The `connectToServer` failure branch of `Client.runMainLoop`:
`if !c.reconnect || (c.config.MaxRetries > 0 && c.retries >= c.config.MaxRetries)`
gives up and flips `isRunning`; otherwise `c.retries++` and the loop retries. -/
def onConnectFailure (reconnect : Bool) (maxRetries : Int) (s : ClientLoopState) :
    FailDecision :=
  if reconnect = false ∨ (0 < maxRetries ∧ maxRetries ≤ s.retries) then
    .gaveUp { s with isRunning := false }
  else
    .willRetry { s with retries := s.retries + 1 }

/-- `runMainLoop` specialised to the scenario in which every connection
attempt fails and no stop signal arrives: iterate the failure branch,
counting the retry attempts (`fuel` bounds the iteration; the interesting
runs give up long before it runs out). -/
def runAllFail (reconnect : Bool) (maxRetries : Int) :
    Nat → ClientLoopState → ClientLoopState × Nat
  | 0, s => (s, 0)
  | fuel + 1, s =>
    if s.isRunning = false then (s, 0)
    else
      match onConnectFailure reconnect maxRetries s with
      | .gaveUp s' => (s', 0)
      | .willRetry s' =>
        let r := runAllFail reconnect maxRetries fuel s'
        (r.1, r.2 + 1)

/-! ## Secure transport close semantics (internal/cipher, `TLSConn`)

The wrapped `*tls.Conn` is abstracted to counters of the I/O operations
actually issued on it, which is exactly what claim C7 is about. -/

/-- `TLSConn` state: the one-shot `closed` flag plus counters of operations
forwarded to the underlying connection. -/
structure TLSConn where
  closed : Bool
  underlyingReads : Nat
  underlyingWrites : Nat
  underlyingCloses : Nat
deriving DecidableEq, Repr

/-- Result of `TLSConn.Read` / `TLSConn.Write`. -/
inductive RWOutcome
  | errClosedPipe
  | forwardedToConn
deriving DecidableEq, Repr

/-- Result of `TLSConn.Close`. -/
inductive CloseOutcome
  | nilAlreadyClosed
  | underlyingClosed
deriving DecidableEq, Repr

/-- `TLSConn.Read`: after the flag check, either `io.ErrClosedPipe` with no
underlying I/O, or one read issued on the wrapped connection. -/
def TLSConn.Read (t : TLSConn) : RWOutcome × TLSConn :=
  if t.closed then (.errClosedPipe, t)
  else (.forwardedToConn, { t with underlyingReads := t.underlyingReads + 1 })

/-- `TLSConn.Write`, symmetric to `TLSConn.Read`. -/
def TLSConn.Write (t : TLSConn) : RWOutcome × TLSConn :=
  if t.closed then (.errClosedPipe, t)
  else (.forwardedToConn, { t with underlyingWrites := t.underlyingWrites + 1 })

/-- `TLSConn.Close`: a second close returns `nil` without touching the
underlying connection; the first sets the flag and closes it once. -/
def TLSConn.Close (t : TLSConn) : CloseOutcome × TLSConn :=
  if t.closed then (.nilAlreadyClosed, t)
  else (.underlyingClosed,
        { t with closed := true, underlyingCloses := t.underlyingCloses + 1 })

/-! ## Concrete inputs used by counterexamples and witnesses -/

/-- A checksum-valid 20-byte IPv4 header with TTL 2 whose checksum field is
0xFEFF (source 185.235.0.0, destination 0.0.0.0, protocol 0). -/
def dataCkFEFF : List Nat :=
  [0x45, 0x00, 0x00, 0x14, 0, 0, 0, 0, 2, 0, 0xFE, 0xFF, 0xB9, 0xEB, 0, 0, 0, 0, 0, 0]

/-- `ParsePacket dataCkFEFF`. -/
def pktCkFEFF : Packet :=
  { data := dataCkFEFF, source := [0xB9, 0xEB, 0, 0], destination := [0, 0, 0, 0],
    protocol := 0, typ := .ipv4 }

/-- A checksum-valid 20-byte IPv4 header, TTL 64, protocol 6,
10.0.0.1 → 10.0.0.2. -/
def dataV4 : List Nat :=
  [0x45, 0x00, 0x00, 0x14, 0, 0, 0, 0, 0x40, 0x06, 0x66, 0xE2, 10, 0, 0, 1, 10, 0, 0, 2]

/-- `ParsePacket dataV4`. -/
def pktV4 : Packet :=
  { data := dataV4, source := [10, 0, 0, 1], destination := [10, 0, 0, 2],
    protocol := 6, typ := .ipv4 }

/-- A 20-byte IPv4 header with TTL 1 (drop case). -/
def dataLowTTL : List Nat :=
  [0x45, 0x00, 0x00, 0x14, 0, 0, 0, 0, 1, 6, 0, 0, 10, 0, 0, 1, 10, 0, 0, 2]

/-- `ParsePacket dataLowTTL`. -/
def pktLowTTL : Packet :=
  { data := dataLowTTL, source := [10, 0, 0, 1], destination := [10, 0, 0, 2],
    protocol := 6, typ := .ipv4 }

/-- A checksum-valid 20-byte IPv4 header with source 255.255.0.0 and TTL 64;
replacing its source by 0.0.0.0 exhibits the lost end-around carry in
`recalculateIPv4Checksum`. -/
def dataCarry : List Nat :=
  [0x45, 0x00, 0x00, 0x14, 0, 0, 0, 0, 0x40, 0x00, 0x7A, 0xEB, 0xFF, 0xFF, 0, 0, 0, 0, 0, 0]

/-- `ParsePacket dataCarry`. -/
def pktCarry : Packet :=
  { data := dataCarry, source := [0xFF, 0xFF, 0, 0], destination := [0, 0, 0, 0],
    protocol := 0, typ := .ipv4 }

/-- `10.0.0.0/8` after `net.ParseCIDR`. -/
def netTen8 : IPNet := { ip := [10, 0, 0, 0], ones := 8 }

/-- `0.0.0.0/0` after `net.ParseCIDR`. -/
def netDefault4 : IPNet := { ip := [0, 0, 0, 0], ones := 0 }

/-- The routing table of the claim C4 scenario: `10.0.0.0/8 → TUN` then
`0.0.0.0/0 → Internet`. -/
def demoRoutes : List Route :=
  addRouteList (addRouteList [] netTen8 .tun) netDefault4 .internet

/-- A mutation sequence exercising upsert, duplicate add and removal. -/
def demoOps : List RouterOp :=
  [.add netTen8 .tun, .add netTen8 .drop, .add netDefault4 .internet, .remove netTen8]

/-! ## Byte-level helper lemmas -/

theorem byteAt_set_ne (d : List Nat) (i v j : Nat) (h : i ≠ j) :
    byteAt (d.set i v) j = byteAt d j := by
  simp [byteAt, List.getD_eq_getElem?_getD, List.getElem?_set_ne h]

theorem byteAt_set_eq (d : List Nat) (i v : Nat) (h : i < d.length) :
    byteAt (d.set i v) i = v := by
  simp [byteAt, List.getD_eq_getElem?_getD, List.getElem?_set_eq_of_lt _ h]

/-- Every successfully parsed packet is tagged `ipv4` or `ipv6`. -/
theorem parse_typ (data : List Nat) (p : Packet) (h : ParsePacket data = .ok p) :
    p.typ = .ipv4 ∨ p.typ = .ipv6 := by
  simp only [ParsePacket] at h
  split at h
  · exact absurd h (by simp)
  · split at h
    · simp only [parseIPv4Packet] at h
      split at h
      · exact absurd h (by simp)
      · split at h
        · exact absurd h (by simp)
        · injection h with h
          subst h
          exact Or.inl rfl
    · split at h
      · simp only [parseIPv6Packet] at h
        split at h
        · exact absurd h (by simp)
        · injection h with h
          subst h
          exact Or.inr rfl
      · exact absurd h (by simp)

theorem parseIPv4Packet_ok_typ (data : List Nat) (p : Packet)
    (h : parseIPv4Packet data = .ok p) : p.typ = .ipv4 := by
  simp only [parseIPv4Packet] at h
  split at h
  · exact absurd h (by simp)
  · split at h
    · exact absurd h (by simp)
    · injection h with h
      subst h
      rfl

theorem parseIPv6Packet_ok_typ (data : List Nat) (p : Packet)
    (h : parseIPv6Packet data = .ok p) : p.typ = .ipv6 := by
  simp only [parseIPv6Packet] at h
  split at h
  · exact absurd h (by simp)
  · injection h with h
    subst h
    rfl

/-! ## Claim theorems (easy group) -/

/-- C3: for every parsed IPv4 packet whose TTL byte is ≤ 1 and every parsed
IPv6 packet whose hop-limit byte is ≤ 1, `ModifyTTL` returns `false` and
leaves the packet (its buffer included) byte-for-byte unchanged. -/
theorem C3_modifyTTL_low_ttl_unchanged (data : List Nat) (p : Packet)
    (_hp : ParsePacket data = .ok p)
    (h : (p.typ = .ipv4 ∧ byteAt p.data 8 ≤ 1) ∨ (p.typ = .ipv6 ∧ byteAt p.data 7 ≤ 1)) :
    p.ModifyTTL = (false, p) := by
  rcases h with ⟨h4, httl⟩ | ⟨h6, httl⟩
  · simp only [Packet.ModifyTTL, h4]
    rw [if_pos httl]
  · simp only [Packet.ModifyTTL, h6]
    rw [if_pos httl]

/-- Witness for C3 at the concrete TTL-1 packet. -/
theorem C3_witness : Packet.ModifyTTL pktLowTTL = (false, pktLowTTL) :=
  C3_modifyTTL_low_ttl_unchanged dataLowTTL pktLowTTL (by decide) (by decide)

/-- C10: for a parsed IPv4 packet with TTL ≥ 2, `ModifyTTL` changes only
offsets 8, 10 and 11; for a parsed IPv6 packet with hop limit ≥ 2, only
offset 7.  Every other byte, the payload included, is unchanged. -/
theorem C10_modifyTTL_frame (data : List Nat) (p : Packet)
    (_hp : ParsePacket data = .ok p) :
    (p.typ = .ipv4 → 2 ≤ byteAt p.data 8 → ∀ i, i ≠ 8 → i ≠ 10 → i ≠ 11 →
      byteAt (p.ModifyTTL).2.data i = byteAt p.data i) ∧
    (p.typ = .ipv6 → 2 ≤ byteAt p.data 7 → ∀ i, i ≠ 7 →
      byteAt (p.ModifyTTL).2.data i = byteAt p.data i) := by
  constructor
  · intro h4 httl i hi8 hi10 hi11
    simp only [Packet.ModifyTTL, h4]
    rw [if_neg (show ¬ byteAt p.data 8 ≤ 1 from by omega)]
    dsimp only
    simp only [put16]
    rw [byteAt_set_ne _ _ _ _ (show 10 + 1 ≠ i from by omega),
        byteAt_set_ne _ _ _ _ (show 10 ≠ i from by omega),
        byteAt_set_ne _ _ _ _ (show 8 ≠ i from by omega)]
  · intro h6 httl i hi7
    simp only [Packet.ModifyTTL, h6]
    rw [if_neg (show ¬ byteAt p.data 7 ≤ 1 from by omega)]
    dsimp only
    exact byteAt_set_ne _ _ _ _ (show 7 ≠ i from by omega)

/-- Witness for C10 at the concrete TTL-64 packet, payload byte 12. -/
theorem C10_witness :
    byteAt (Packet.ModifyTTL pktV4).2.data 12 = byteAt pktV4.data 12 :=
  (C10_modifyTTL_frame dataV4 pktV4 (by decide)).1 (by decide) (by decide)
    12 (by decide) (by decide) (by decide)

/-- C7: once `Close` has run on a `TLSConn`, subsequent `Read`/`Write` fail
with the closed-pipe error without touching the underlying connection, and a
second `Close` returns nil without closing the underlying connection again. -/
theorem C7_tlsconn_close_semantics (t : TLSConn) :
    ((t.Close).2).closed = true ∧
    TLSConn.Read (t.Close).2 = (.errClosedPipe, (t.Close).2) ∧
    TLSConn.Write (t.Close).2 = (.errClosedPipe, (t.Close).2) ∧
    TLSConn.Close (t.Close).2 = (.nilAlreadyClosed, (t.Close).2) := by
  by_cases h : t.closed <;>
    simp [TLSConn.Close, TLSConn.Read, TLSConn.Write, h]

/-- C2 (code bug): on the checksum-valid packet `dataCarry` (source
255.255.0.0), replacing the source address by 0.0.0.0 succeeds but writes the
checksum 0x7AEA, while the independent full recomputation yields 0x7AEB: the
final end-around carry is lost and the header no longer validates. -/
theorem C2_recalculateChecksum_lost_carry :
    ParsePacket dataCarry = .ok pktCarry ∧
    ipv4ChecksumValid pktCarry.data ∧
    (pktCarry.ReplaceSourceAddress [0, 0, 0, 0]).1 = .ok () ∧
    word16 (pktCarry.ReplaceSourceAddress [0, 0, 0, 0]).2.data 10 = 0x7AEA ∧
    ipv4RecomputeChecksum (pktCarry.ReplaceSourceAddress [0, 0, 0, 0]).2.data = 0x7AEB ∧
    ¬ ipv4ChecksumValid (pktCarry.ReplaceSourceAddress [0, 0, 0, 0]).2.data := by
  decide

/-- C1 (counterexample): on the checksum-valid TTL-2 packet whose checksum
field is 0xFEFF, `ModifyTTL` stores 0xFFFF while the independent full
recomputation of the updated header yields 0x0000, so the stored checksum
does not equal the recomputed one. -/
theorem C1_counterexample_checksum :
    ParsePacket dataCkFEFF = .ok pktCkFEFF ∧
    ipv4ChecksumValid pktCkFEFF.data ∧
    2 ≤ byteAt pktCkFEFF.data 8 ∧
    (pktCkFEFF.ModifyTTL).1 = true ∧
    word16 (pktCkFEFF.ModifyTTL).2.data 10 = 65535 ∧
    ipv4RecomputeChecksum (pktCkFEFF.ModifyTTL).2.data = 0 ∧
    word16 (pktCkFEFF.ModifyTTL).2.data 10 ≠
      ipv4RecomputeChecksum (pktCkFEFF.ModifyTTL).2.data := by
  decide

/-- C8: `ParsePacket` rejects every buffer whose version nibble is neither 4
nor 6 (the empty buffer with the too-short error), reports the version
specific too-short error below 20 (v4) / 40 (v6) bytes, and on success tags
the packet according to the version nibble. -/
theorem C8_parsePacket_errors (data : List Nat) :
    ParsePacket ([] : List Nat) = .error .tooShort ∧
    (byteAt data 0 >>> 4 &&& 0x0F ≠ 4 → byteAt data 0 >>> 4 &&& 0x0F ≠ 6 →
      ParsePacket data =
        .error (if data.length < 1 then .tooShort else .unsupportedVersion)) ∧
    (byteAt data 0 >>> 4 &&& 0x0F = 4 → data.length < 20 →
      ParsePacket data = .error .v4TooShort) ∧
    (byteAt data 0 >>> 4 &&& 0x0F = 6 → data.length < 40 →
      ParsePacket data = .error .v6TooShort) ∧
    (∀ p, ParsePacket data = .ok p →
      (byteAt data 0 >>> 4 &&& 0x0F = 4 ∧ p.typ = .ipv4) ∨
      (byteAt data 0 >>> 4 &&& 0x0F = 6 ∧ p.typ = .ipv6)) := by
  refine ⟨by decide, ?_, ?_, ?_, ?_⟩
  · intro h4 h6
    by_cases h1 : data.length < 1
    · rw [if_pos h1]
      simp [ParsePacket, h1]
    · rw [if_neg h1]
      simp [ParsePacket, h1, h4, h6]
  · intro h4 hlen
    have hne : ¬ data.length < 1 := by
      rcases data with _ | ⟨b, rest⟩
      · exact absurd h4 (by decide)
      · simp
    simp [ParsePacket, parseIPv4Packet, hne, h4, hlen]
  · intro h6 hlen
    have hne : ¬ data.length < 1 := by
      rcases data with _ | ⟨b, rest⟩
      · exact absurd h6 (by decide)
      · simp
    have h4 : ¬ byteAt data 0 >>> 4 &&& 0x0F = 4 := by
      rw [h6]
      decide
    simp [ParsePacket, parseIPv6Packet, hne, h4, h6, hlen]
  · intro p hp
    simp only [ParsePacket] at hp
    split at hp
    · exact absurd hp (by simp)
    · by_cases h4 : byteAt data 0 >>> 4 &&& 0x0F = 4
      · rw [if_pos h4] at hp
        exact Or.inl ⟨h4, parseIPv4Packet_ok_typ data p hp⟩
      · rw [if_neg h4] at hp
        by_cases h6 : byteAt data 0 >>> 4 &&& 0x0F = 6
        · rw [if_pos h6] at hp
          exact Or.inr ⟨h6, parseIPv6Packet_ok_typ data p hp⟩
        · rw [if_neg h6] at hp
          exact absurd hp (by simp)

/-- Witness for C8: a 1-byte version-4 buffer fails as too short. -/
theorem C8_witness : ParsePacket [0x45] = .error .v4TooShort :=
  (C8_parsePacket_errors [0x45]).2.2.1 (by decide) (by decide)

/-- C9: on a parsed packet, the address-replacement operations fail exactly
when the replacement length is wrong for the packet's version (4 bytes for
v4, 16 for v6), and a failing call leaves the packet — buffer, `Source` and
`Destination` fields included — unchanged. -/
theorem C9_replace_address_errors (data : List Nat) (p : Packet)
    (hp : ParsePacket data = .ok p) (a : List Nat) :
    ((∃ e, (p.ReplaceSourceAddress a).1 = .error e) ↔
      (p.typ = .ipv4 ∧ a.length ≠ 4) ∨ (p.typ = .ipv6 ∧ a.length ≠ 16)) ∧
    ((∃ e, (p.ReplaceDestinationAddress a).1 = .error e) ↔
      (p.typ = .ipv4 ∧ a.length ≠ 4) ∨ (p.typ = .ipv6 ∧ a.length ≠ 16)) ∧
    ((∃ e, (p.ReplaceSourceAddress a).1 = .error e) →
      (p.ReplaceSourceAddress a).2 = p) ∧
    ((∃ e, (p.ReplaceDestinationAddress a).1 = .error e) →
      (p.ReplaceDestinationAddress a).2 = p) := by
  rcases parse_typ data p hp with h4 | h6
  · by_cases ha : a.length = 4 <;>
      simp [Packet.ReplaceSourceAddress, Packet.ReplaceDestinationAddress, h4, ha]
  · by_cases ha : a.length = 16 <;>
      simp [Packet.ReplaceSourceAddress, Packet.ReplaceDestinationAddress, h6, ha]

/-- Witness for C9: a 3-byte replacement address on a v4 packet leaves the
packet unchanged. -/
theorem C9_witness : (Packet.ReplaceSourceAddress pktV4 [1, 2, 3]).2 = pktV4 :=
  (C9_replace_address_errors dataV4 pktV4 (by decide) [1, 2, 3]).2.2.1
    ⟨.invalidV4Address, by decide⟩

/-- Auxiliary: once `isRunning` is false the loop body is never entered. -/
theorem runAllFail_stopped (re : Bool) (m : Int) (fuel : Nat) (s : ClientLoopState)
    (h : s.isRunning = false) : runAllFail re m fuel s = (s, 0) := by
  cases fuel <;> simp [runAllFail, h]

/-- C6: on a connection failure the client loop gives up (and flips
`isRunning`) exactly when reconnection is disabled or `MaxRetries` is
positive and already reached, otherwise it increments the retry counter and
retries; consequently with `MaxRetries = 2` and every attempt failing the
loop performs exactly 2 retry attempts and ends stopped. -/
theorem C6_reconnect_giveup_policy :
    (∀ (reconnect : Bool) (maxRetries : Int) (s : ClientLoopState),
      onConnectFailure reconnect maxRetries s =
        if reconnect = false ∨ (0 < maxRetries ∧ maxRetries ≤ s.retries) then
          .gaveUp { retries := s.retries, isRunning := false }
        else
          .willRetry { retries := s.retries + 1, isRunning := s.isRunning }) ∧
    (∀ fuel : Nat,
      runAllFail true 2 (fuel + 3) { retries := 0, isRunning := true } =
        ({ retries := 2, isRunning := false }, 2)) := by
  constructor
  · intro reconnect maxRetries s
    cases s
    rfl
  · intro fuel
    have e1 : onConnectFailure true 2 { retries := 0, isRunning := true } =
        .willRetry { retries := 1, isRunning := true } := by decide
    have e2 : onConnectFailure true 2 { retries := 1, isRunning := true } =
        .willRetry { retries := 2, isRunning := true } := by decide
    have e3 : onConnectFailure true 2 { retries := 2, isRunning := true } =
        .gaveUp { retries := 2, isRunning := false } := by decide
    show runAllFail true 2 (fuel + 2 + 1) _ = _
    rw [runAllFail]
    simp only [e1, e2, e3]
    rw [runAllFail]
    simp only [e2, e3]
    rw [runAllFail]
    simp only [e3]
    rfl

/-! ## Routing-table lemmas and claims C4 / C5 -/

theorem lpmBest_cons_cons (r r1 : Route) (l : List Route) :
    lpmBest (r :: r1 :: l) =
      lpmBest ((if r1.network.ones > r.network.ones then r1 else r) :: l) := by
  rcases h : lpmBest l with _ | b <;>
    simp only [lpmBest, h] <;>
    split_ifs <;>
    dsimp only <;>
    split_ifs <;>
    first | rfl | (exfalso; omega)

theorem getRouteLoop_some (ip : List Nat) :
    ∀ (l : List Route) (r : Route),
      getRouteLoop ip l (some (r, r.network.ones)) =
        match lpmBest (r :: l.filter (fun x => x.network.Contains ip)) with
        | none => RouteType.internet
        | some b => b.typ := by
  intro l
  induction l with
  | nil =>
    intro r
    simp [getRouteLoop, lpmBest]
  | cons r1 rest ih =>
    intro r
    by_cases hc : r1.network.Contains ip
    · have hf : List.filter (fun x => x.network.Contains ip) (r1 :: rest) =
          r1 :: List.filter (fun x => x.network.Contains ip) rest := by
        simp [List.filter_cons, hc]
      by_cases hgt : r1.network.ones > r.network.ones
      · rw [show getRouteLoop ip (r1 :: rest) (some (r, r.network.ones)) =
              getRouteLoop ip rest (some (r1, r1.network.ones)) from by
            simp [getRouteLoop, hc, hgt]]
        rw [ih r1, hf, lpmBest_cons_cons, if_pos hgt]
      · rw [show getRouteLoop ip (r1 :: rest) (some (r, r.network.ones)) =
              getRouteLoop ip rest (some (r, r.network.ones)) from by
            simp [getRouteLoop, hc, hgt]]
        rw [ih r, hf, lpmBest_cons_cons, if_neg hgt]
    · have hf : List.filter (fun x => x.network.Contains ip) (r1 :: rest) =
          List.filter (fun x => x.network.Contains ip) rest := by
        simp [List.filter_cons, hc]
      rw [show getRouteLoop ip (r1 :: rest) (some (r, r.network.ones)) =
            getRouteLoop ip rest (some (r, r.network.ones)) from by
          simp [getRouteLoop, hc]]
      rw [ih r, hf]

theorem getRouteLoop_none (ip : List Nat) :
    ∀ l : List Route, getRouteLoop ip l none = classifySpec l ip := by
  intro l
  induction l with
  | nil => rfl
  | cons r rest ih =>
    by_cases hc : r.network.Contains ip
    · have hf : List.filter (fun x => x.network.Contains ip) (r :: rest) =
          r :: List.filter (fun x => x.network.Contains ip) rest := by
        simp [List.filter_cons, hc]
      rw [show getRouteLoop ip (r :: rest) none =
            getRouteLoop ip rest (some (r, r.network.ones)) from by
          simp [getRouteLoop, hc]]
      rw [getRouteLoop_some ip rest r]
      simp only [classifySpec, hf]
    · have hf : List.filter (fun x => x.network.Contains ip) (r :: rest) =
          List.filter (fun x => x.network.Contains ip) rest := by
        simp [List.filter_cons, hc]
      rw [show getRouteLoop ip (r :: rest) none = getRouteLoop ip rest none from by
          simp [getRouteLoop, hc]]
      rw [ih]
      simp only [classifySpec, hf]

theorem lpmBest_eq_none (l : List Route) : lpmBest l = none ↔ l = [] := by
  cases l with
  | nil => simp [lpmBest]
  | cons r rest =>
    simp only [lpmBest]
    rcases h : lpmBest rest with _ | b <;> simp
    split_ifs <;> simp

/-- C4: `GetRoute` implements longest-prefix match — it agrees with the
spec-side `classifySpec` (largest mask among containing prefixes, first scan
wins ties, `Internet` default), `lpmBest` indeed picks a member of maximal
mask length, and the concrete 10.0.0.0/8 / 0.0.0.0/0 scenario behaves as the
spec requires, including after removing 10.0.0.0/8. -/
theorem C4_getRoute_longest_match :
    (∀ (routes : List Route) (ip : List Nat), GetRoute routes ip = classifySpec routes ip) ∧
    (∀ (ms : List Route) (r : Route), lpmBest ms = some r →
      r ∈ ms ∧ ∀ x ∈ ms, x.network.ones ≤ r.network.ones) ∧
    GetRoute demoRoutes [10, 1, 2, 3] = .tun ∧
    GetRoute demoRoutes [8, 8, 8, 8] = .internet ∧
    removeRouteList demoRoutes netTen8 =
      some [{ network := netDefault4, typ := RouteType.internet }] ∧
    GetRoute [{ network := netDefault4, typ := RouteType.internet }] [10, 1, 2, 3] =
      .internet := by
  refine ⟨fun routes ip => getRouteLoop_none ip routes, ?_, by decide, by decide,
    by decide, by decide⟩
  intro ms
  induction ms with
  | nil =>
    intro r h
    simp [lpmBest] at h
  | cons a l ih =>
    intro r h
    simp only [lpmBest] at h
    rcases hl : lpmBest l with _ | b
    · rw [hl] at h
      injection h with h
      subst h
      have hnil : l = [] := (lpmBest_eq_none l).mp hl
      subst hnil
      exact ⟨List.mem_singleton_self _, by simp⟩
    · rw [hl] at h
      dsimp only at h
      obtain ⟨hmem, hmax⟩ := ih b hl
      by_cases hgt : b.network.ones > a.network.ones
      · rw [if_pos hgt] at h
        injection h with h
        subst h
        refine ⟨List.mem_cons_of_mem a hmem, ?_⟩
        intro x hx
        rcases List.mem_cons.mp hx with rfl | hx
        · omega
        · exact hmax x hx
      · rw [if_neg hgt] at h
        injection h with h
        subst h
        refine ⟨List.mem_cons_self _ _, ?_⟩
        intro x hx
        rcases List.mem_cons.mp hx with rfl | hx
        · exact le_rfl
        · have := hmax x hx
          omega

/-- Witness for C4: `lpmBest` on the demo table returns the 10.0.0.0/8 route,
a member with maximal mask length. -/
theorem C4_witness :
    { network := netTen8, typ := RouteType.tun } ∈ demoRoutes ∧
    ∀ x ∈ demoRoutes, x.network.ones ≤ netTen8.ones :=
  C4_getRoute_longest_match.2.1 demoRoutes
    { network := netTen8, typ := RouteType.tun } (by decide)

theorem addRouteList_map_network (l : List Route) (n : IPNet) (t : RouteType) :
    (addRouteList l n t).map Route.network =
      if n ∈ l.map Route.network then l.map Route.network
      else l.map Route.network ++ [n] := by
  induction l with
  | nil => simp [addRouteList]
  | cons r rest ih =>
    by_cases h : r.network = n
    · simp only [addRouteList, if_pos h, List.map_cons]
      rw [if_pos (by rw [← h]; exact List.mem_cons_self _ _)]
    · simp only [addRouteList, if_neg h, List.map_cons, ih]
      by_cases hm : n ∈ rest.map Route.network
      · rw [if_pos hm, if_pos (List.mem_cons_of_mem _ hm)]
      · rw [if_neg hm, if_neg ?_]
        · simp
        · rw [List.mem_cons]
          rintro (e | e)
          · exact h e.symm
          · exact hm e

theorem addRouteList_nodup (l : List Route) (n : IPNet) (t : RouteType)
    (h : (l.map Route.network).Nodup) :
    ((addRouteList l n t).map Route.network).Nodup := by
  rw [addRouteList_map_network]
  split_ifs with hm
  · exact h
  · rw [List.nodup_append]
    exact ⟨h, List.nodup_singleton n, fun x hx hxn => hm ((List.mem_singleton.mp hxn) ▸ hx)⟩

theorem addRouteList_length_of_mem (l : List Route) (n : IPNet) (t : RouteType)
    (h : n ∈ l.map Route.network) :
    (addRouteList l n t).length = l.length := by
  induction l with
  | nil => simp at h
  | cons r rest ih =>
    by_cases hr : r.network = n
    · simp [addRouteList, hr]
    · have h' : n ∈ rest.map Route.network := by
        rcases List.mem_cons.mp h with e | e
        · exact absurd e.symm hr
        · exact e
      simp [addRouteList, hr, ih h']

/-- Swap-remove (overwrite position `i` with the last element, drop the last
element) preserves `Nodup`. -/
theorem nodup_set_getLastD_dropLast {α : Type} (m : List α) (d : α) (i : Nat)
    (hi : i < m.length) (h : m.Nodup) :
    ((m.set i (m.getLastD d)).dropLast).Nodup := by
  have hne : m ≠ [] := by rintro rfl; simp at hi
  obtain ⟨m', a, rfl⟩ : ∃ m' a, m = m' ++ [a] :=
    ⟨m.dropLast, m.getLast hne, (List.dropLast_concat_getLast hne).symm⟩
  rw [List.getLastD_concat]
  rw [List.nodup_append] at h
  have ha : a ∉ m' := fun hm => h.2.2 hm (List.mem_singleton.mpr rfl)
  rcases Nat.lt_or_ge i m'.length with hlt | hge
  · rw [List.set_append_left _ _ hlt, List.dropLast_concat]
    exact h.1.set ha
  · rw [List.set_append_right _ _ hge]
    have : [a].set (i - m'.length) a = [a] := by
      rcases Nat.eq_or_lt_of_le hge with e | hlt2
    -- i < m'.length + 1 from hi, so i = m'.length
      · rw [← e, Nat.sub_self]
        rfl
      · have : i = m'.length := by
          simp only [List.length_append, List.length_singleton] at hi
          omega
        omega
    rw [this, List.dropLast_concat]
    exact h.1

theorem removeRouteList_map_nodup (l : List Route) (n : IPNet) (l' : List Route)
    (hr : removeRouteList l n = some l') (h : (l.map Route.network).Nodup) :
    (l'.map Route.network).Nodup := by
  unfold removeRouteList at hr
  rcases hfi : l.findIdx? (fun r => r.network == n) with _ | i
  · rw [hfi] at hr
    exact absurd hr (by simp)
  · rw [hfi] at hr
    injection hr with hr
    subst hr
    have hi : i < l.length := (List.findIdx?_eq_some_iff_findIdx_eq.mp hfi).1
    rw [List.map_dropLast, List.map_set,
        show Route.network (l.getLastD { network := n, typ := .internet }) =
          (l.map Route.network).getLastD n from
          (List.getLastD_map Route.network l { network := n, typ := .internet }).symm]
    exact nodup_set_getLastD_dropLast _ _ i (by simpa using hi) h

/-- C5: no sequence of `AddRoute`/`RemoveRoute` operations can introduce two
routes with equal network prefixes, and adding an already-present prefix
replaces that route's classification in place: the list of prefixes and the
table length are unchanged. -/
theorem C5_no_duplicate_routes :
    (∀ (ops : List RouterOp) (routes : List Route),
      (routes.map Route.network).Nodup →
      ((applyOps ops routes).map Route.network).Nodup) ∧
    (∀ (routes : List Route) (n : IPNet) (t : RouteType),
      n ∈ routes.map Route.network →
        (addRouteList routes n t).map Route.network = routes.map Route.network ∧
        (addRouteList routes n t).length = routes.length) := by
  constructor
  · intro ops
    induction ops with
    | nil =>
      intro routes h
      exact h
    | cons op rest ih =>
      intro routes h
      simp only [applyOps, List.foldl_cons] at *
      refine ih (applyOp routes op) ?_
      cases op with
      | add n t => exact addRouteList_nodup _ _ _ h
      | remove n =>
        dsimp only [applyOp]
        rcases hr : removeRouteList routes n with _ | l'
        · exact h
        · exact removeRouteList_map_nodup routes n l' hr h
  · intro routes n t hm
    exact ⟨by rw [addRouteList_map_network, if_pos hm],
      addRouteList_length_of_mem _ _ _ hm⟩

/-- Witness for C5 on a concrete mutation sequence and table. -/
theorem C5_witness :
    ((applyOps demoOps []).map Route.network).Nodup ∧
    (addRouteList demoRoutes netTen8 .drop).map Route.network =
      demoRoutes.map Route.network :=
  ⟨C5_no_duplicate_routes.1 demoOps [] (by decide),
   (C5_no_duplicate_routes.2 demoRoutes netTen8 .drop (by decide)).1⟩

/-! ## One's-complement arithmetic lemmas and claim C1 -/

/-- The end-around-carry loop computes the canonical representative in
`[1, 65535]` of the accumulator's class modulo 65535 (for a positive
accumulator). -/
theorem onesFoldAux_eq (fuel : Nat) :
    ∀ s : Nat, s ≤ fuel → 0 < s → onesFoldAux fuel s = (s - 1) % 65535 + 1 := by
  induction fuel with
  | zero =>
    intro s hs hpos
    omega
  | succ n ih =>
    intro s hs hpos
    simp only [onesFoldAux]
    split_ifs with h
    · omega
    · have h1 : s % 65536 + s / 65536 ≤ n := by omega
      have h2 : 0 < s % 65536 + s / 65536 := by omega
      rw [ih _ h1 h2]
      omega

theorem onesFold_eq (s : Nat) (hs : 0 < s) : onesFold s = (s - 1) % 65535 + 1 :=
  onesFoldAux_eq s s le_rfl hs

theorem byteAt_lt (d : List Nat) (hb : ∀ b ∈ d, b < 256) (i : Nat) :
    byteAt d i < 256 := by
  unfold byteAt
  rw [List.getD_eq_getElem?_getD]
  rcases Nat.lt_or_ge i d.length with h | h
  · rw [List.getElem?_eq_getElem h]
    exact hb _ (List.getElem_mem h)
  · rw [List.getElem?_eq_none h]
    norm_num

/-- Buffers with equal words below `n` have equal word sums. -/
theorem sumWords_congr (d d' : List Nat) (n : Nat)
    (h : ∀ i, i < n → word16 d' (2 * i) = word16 d (2 * i)) :
    sumWords d' n = sumWords d n := by
  induction n with
  | zero => rfl
  | succ k ih =>
    simp only [sumWords]
    rw [h k (by omega), ih (fun i hi => h i (by omega))]

/-- Changing a single 16-bit word changes the word sum by that word's
difference. -/
theorem sumWords_one_diff (d d' : List Nat) (j : Nat)
    (h : ∀ i, i ≠ j → word16 d' (2 * i) = word16 d (2 * i)) :
    ∀ n, j < n →
      sumWords d' n + word16 d (2 * j) = sumWords d n + word16 d' (2 * j) := by
  intro n
  induction n with
  | zero =>
    intro h0
    omega
  | succ k ih =>
    intro hj
    rcases Nat.lt_or_ge j k with hlt | hge
    · have hk := ih hlt
      simp only [sumWords]
      rw [h k (by omega)]
      omega
    · have hjk : j = k := by omega
      subst hjk
      simp only [sumWords]
      have he : sumWords d' j = sumWords d j :=
        sumWords_congr d d' j (fun i hi => h i (by omega))
      omega

/-- Every word of the summed range is bounded by the sum. -/
theorem word16_le_sumWords (d : List Nat) (i : Nat) :
    ∀ n, i < n → word16 d (2 * i) ≤ sumWords d n := by
  intro n
  induction n with
  | zero =>
    intro h
    omega
  | succ k ih =>
    intro hi
    rcases Nat.lt_or_ge i k with hlt | hge
    · have := ih hlt
      simp only [sumWords]
      omega
    · have hik : i = k := by omega
      subst hik
      simp only [sumWords]
      omega

theorem word16_set_ne (d : List Nat) (i v j : Nat) (h1 : i ≠ j) (h2 : i ≠ j + 1) :
    word16 (d.set i v) j = word16 d j := by
  unfold word16
  rw [byteAt_set_ne d i v j h1, byteAt_set_ne d i v (j + 1) h2]

theorem byteAt_put16_ne (d : List Nat) (i v j : Nat) (h1 : i ≠ j) (h2 : i + 1 ≠ j) :
    byteAt (put16 d i v) j = byteAt d j := by
  simp only [put16]
  rw [byteAt_set_ne (d.set i (v / 256 % 256)) (i + 1) (v % 256) j h2,
      byteAt_set_ne d i (v / 256 % 256) j h1]

theorem word16_put16_ne (d : List Nat) (i v j : Nat)
    (h1 : i ≠ j) (h2 : i ≠ j + 1) (h3 : i + 1 ≠ j) (h4 : i + 1 ≠ j + 1) :
    word16 (put16 d i v) j = word16 d j := by
  unfold word16
  rw [byteAt_put16_ne d i v j h1 h3, byteAt_put16_ne d i v (j + 1) h2 h4]

theorem word16_put16 (d : List Nat) (i v : Nat) (hv : v < 65536)
    (hi : i + 1 < d.length) :
    word16 (put16 d i v) i = v := by
  unfold word16
  simp only [put16]
  rw [byteAt_set_ne (d.set i (v / 256 % 256)) (i + 1) (v % 256) i (by omega),
      byteAt_set_eq d i (v / 256 % 256) (by omega),
      byteAt_set_eq (d.set i (v / 256 % 256)) (i + 1) (v % 256) (by simp; omega)]
  omega

theorem byteAt_zeroCk_ne (d : List Nat) (j : Nat) (h1 : 10 ≠ j) (h2 : 11 ≠ j) :
    byteAt ((d.set 10 0).set 11 0) j = byteAt d j := by
  rw [byteAt_set_ne (d.set 10 0) 11 0 j h2, byteAt_set_ne d 10 0 j h1]

theorem word16_zeroCk_ne (d : List Nat) (j : Nat)
    (h1 : 10 ≠ j) (h2 : 11 ≠ j) (h3 : 10 ≠ j + 1) (h4 : 11 ≠ j + 1) :
    word16 ((d.set 10 0).set 11 0) j = word16 d j := by
  unfold word16
  rw [byteAt_zeroCk_ne d j h1 h2, byteAt_zeroCk_ne d (j + 1) h3 h4]

/-- Facts a successful IPv4 parse guarantees about the buffer. -/
theorem parse_ok_v4 (data : List Nat) (p : Packet) (h : ParsePacket data = .ok p)
    (h4 : p.typ = .ipv4) :
    p.data = data ∧ 20 ≤ data.length ∧ ihlBytes data ≤ data.length := by
  simp only [ParsePacket] at h
  split at h
  · exact absurd h (by simp)
  · split at h
    · simp only [parseIPv4Packet] at h
      split at h
      · exact absurd h (by simp)
      · split at h
        · exact absurd h (by simp)
        · injection h with h
          subst h
          refine ⟨rfl, by omega, ?_⟩
          unfold ihlBytes
          omega
    · split at h
      · have h6 := parseIPv6Packet_ok_typ data p h
        rw [h4] at h6
        exact absurd h6 (by simp)
      · exact absurd h (by simp)

/-- C1 (amended): for a parsed, byte-valued, checksum-valid IPv4 packet with
IHL ≥ 5 and TTL ≥ 2, `ModifyTTL` returns `true`, decrements the TTL byte by
exactly one, and stores the one's-complement equivalent of the independently
recomputed header checksum: the stored value equals the full recomputation
except that where the recomputation yields 0x0000 the code stores the
equivalent representation 0xFFFF; in both cases the updated header still
validates under the one's-complement check. -/
theorem C1_amended_modifyTTL_checksum (data : List Nat) (p : Packet)
    (hp : ParsePacket data = .ok p) (h4 : p.typ = .ipv4)
    (hbytes : ∀ b ∈ data, b < 256)
    (hihl : 20 ≤ ihlBytes data)
    (hvalid : ipv4ChecksumValid data)
    (httl : 2 ≤ byteAt data 8) :
    (p.ModifyTTL).1 = true ∧
    byteAt (p.ModifyTTL).2.data 8 = byteAt data 8 - 1 ∧
    (word16 (p.ModifyTTL).2.data 10 = ipv4RecomputeChecksum (p.ModifyTTL).2.data ∨
      (word16 (p.ModifyTTL).2.data 10 = 65535 ∧
        ipv4RecomputeChecksum (p.ModifyTTL).2.data = 0)) ∧
    ipv4ChecksumValid (p.ModifyTTL).2.data := by
  obtain ⟨hdata, hlen, hihl_le⟩ := parse_ok_v4 data p hp h4
  rw [← hdata] at hbytes hihl hvalid httl hihl_le hlen ⊢
  simp only [Packet.ModifyTTL, h4]
  rw [if_neg (show ¬ byteAt p.data 8 ≤ 1 from by omega)]
  dsimp only
  simp only [ipv4RecomputeChecksum, ipv4ChecksumValid]
  set d := p.data with hd
  set d1 := d.set 8 (byteAt d 8 - 1) with hd1
  set c0 := (word16 d1 10 + 0x0100) % 65536 with hc0
  set c1 := if c0 ≤ 0x00FF then c0 + 1 else c0 with hc1
  set D := put16 d1 10 c1 with hD
  set Z := (D.set 10 0).set 11 0 with hZ
  -- byte bounds
  have hb8 : byteAt d 8 < 256 := byteAt_lt d hbytes 8
  have hb9 : byteAt d 9 < 256 := byteAt_lt d hbytes 9
  have hb10 : byteAt d 10 < 256 := byteAt_lt d hbytes 10
  have hb11 : byteAt d 11 < 256 := byteAt_lt d hbytes 11
  -- lengths
  have hlen1 : d1.length = d.length := by rw [hd1]; simp
  have hlenD : D.length = d.length := by rw [hD]; simp [put16, hlen1]
  -- basic byte computations on d1
  have hd1_8 : byteAt d1 8 = byteAt d 8 - 1 := by
    rw [hd1]; exact byteAt_set_eq d 8 _ (by omega)
  have hd1_9 : byteAt d1 9 = byteAt d 9 := by
    rw [hd1]; exact byteAt_set_ne d 8 _ 9 (by omega)
  -- word values
  have hw_d8 : word16 d 8 = 256 * byteAt d 8 + byteAt d 9 := rfl
  have hw_d1_8 : word16 d1 8 = 256 * (byteAt d 8 - 1) + byteAt d 9 := by
    unfold word16
    rw [show (8 : Nat) + 1 = 9 from rfl, hd1_8, hd1_9]
  have hw_d1_10 : word16 d1 10 = word16 d 10 := by
    rw [hd1]
    exact word16_set_ne d 8 _ 10 (by omega) (by omega)
  have hC_le : word16 d 10 ≤ 65535 := by
    unfold word16
    rw [show (10 : Nat) + 1 = 11 from rfl]
    omega
  have hc1_le : c1 ≤ 65535 := by
    rw [hc1, hc0]
    split_ifs <;> omega
  -- words of D
  have hw_D8 : word16 D 8 = 256 * (byteAt d 8 - 1) + byteAt d 9 := by
    rw [hD, word16_put16_ne d1 10 c1 8 (by omega) (by omega) (by omega) (by omega),
        hw_d1_8]
  have hD_b8 : byteAt D 8 = byteAt d 8 - 1 := by
    rw [hD, byteAt_put16_ne d1 10 c1 8 (by omega) (by omega), hd1_8]
  have hw_D10 : word16 D 10 = c1 := by
    rw [hD]
    exact word16_put16 d1 10 c1 (by omega) (by omega)
  -- words of Z
  have hw_Z10 : word16 Z 10 = 0 := by
    rw [hZ]
    unfold word16
    rw [show (10 : Nat) + 1 = 11 from rfl,
        byteAt_set_ne (D.set 10 0) 11 0 10 (by omega),
        byteAt_set_eq D 10 0 (by omega),
        byteAt_set_eq (D.set 10 0) 11 0 (by rw [List.length_set]; omega)]
  have hw_Z8 : word16 Z 8 = 256 * (byteAt d 8 - 1) + byteAt d 9 := by
    rw [hZ, word16_zeroCk_ne D 8 (by omega) (by omega) (by omega) (by omega), hw_D8]
  -- header length of D equals that of d
  have hihlD : ihlBytes D = ihlBytes d := by
    unfold ihlBytes
    rw [hD, byteAt_put16_ne d1 10 c1 0 (by omega) (by omega), hd1,
        byteAt_set_ne d 8 _ 0 (by omega)]
  rw [hihlD]
  set m := ihlBytes d / 2 with hm
  have hm10 : 10 ≤ m := by
    rw [hm]
    omega
  -- word sums: d → d1 (word 4), d1 → D (word 5), D → Z (word 5)
  have hs1 : sumWords d1 m + word16 d (2 * 4) = sumWords d m + word16 d1 (2 * 4) := by
    refine sumWords_one_diff d d1 4 ?_ m (by omega)
    intro i hi
    rw [hd1]
    exact word16_set_ne d 8 _ (2 * i) (by omega) (by omega)
  have hs2 : sumWords D m + word16 d1 (2 * 5) = sumWords d1 m + word16 D (2 * 5) := by
    refine sumWords_one_diff d1 D 5 ?_ m (by omega)
    intro i hi
    rw [hD]
    exact word16_put16_ne d1 10 c1 (2 * i) (by omega) (by omega) (by omega) (by omega)
  have hsz : sumWords Z m + word16 D (2 * 5) = sumWords D m + word16 Z (2 * 5) := by
    refine sumWords_one_diff D Z 5 ?_ m (by omega)
    intro i hi
    rw [hZ]
    exact word16_zeroCk_ne D (2 * i) (by omega) (by omega) (by omega) (by omega)
  rw [show (2 * 4 : Nat) = 8 from rfl] at hs1
  rw [show (2 * 5 : Nat) = 10 from rfl] at hs2 hsz
  -- lower bounds on the sums
  have hle_d : word16 d (2 * 4) ≤ sumWords d m := word16_le_sumWords d 4 m (by omega)
  have hle_D : word16 D (2 * 4) ≤ sumWords D m := word16_le_sumWords D 4 m (by omega)
  have hle_Z : word16 Z (2 * 4) ≤ sumWords Z m := word16_le_sumWords Z 4 m (by omega)
  rw [show (2 * 4 : Nat) = 8 from rfl] at hle_d hle_D hle_Z
  -- unfold the validity hypothesis
  unfold ipv4ChecksumValid at hvalid
  rw [← hm] at hvalid
  have hSpos : 0 < sumWords d m := by
    rw [hw_d8] at hle_d
    omega
  rw [onesFold_eq _ hSpos] at hvalid
  have hDpos : 0 < sumWords D m := by
    rw [hw_D8] at hle_D
    omega
  have hZpos : 0 < sumWords Z m := by
    rw [hw_Z8] at hle_Z
    omega
  have hc1val : c1 = if (word16 d 10 + 0x0100) % 65536 ≤ 0x00FF
      then (word16 d 10 + 0x0100) % 65536 + 1
      else (word16 d 10 + 0x0100) % 65536 := by
    rw [hc1, hc0, hw_d1_10]
  rw [hw_d1_10] at hs2
  rw [hw_D10] at hs2 hsz
  rw [hw_Z10] at hsz
  rw [hw_d1_8] at hs1
  rw [hw_d8] at hs1
  rw [hw_Z8] at hle_Z
  rw [hw_D8] at hle_D
  rw [hc1val] at hs2 hsz
  refine ⟨trivial, hD_b8, ?_, ?_⟩
  · rw [hw_D10, onesFold_eq _ hZpos, hc1val]
    by_cases hcc : (word16 d 10 + 0x0100) % 65536 ≤ 0x00FF
    · rw [if_pos hcc] at hs2 hsz ⊢
      omega
    · rw [if_neg hcc] at hs2 hsz ⊢
      omega
  · rw [onesFold_eq _ hDpos]
    by_cases hcc : (word16 d 10 + 0x0100) % 65536 ≤ 0x00FF
    · rw [if_pos hcc] at hs2
      omega
    · rw [if_neg hcc] at hs2
      omega

/-- Witness for (amended) C1 at the concrete checksum-valid TTL-64 packet. -/
theorem C1_amended_witness :
    (Packet.ModifyTTL pktV4).1 = true ∧
    byteAt (Packet.ModifyTTL pktV4).2.data 8 = byteAt dataV4 8 - 1 ∧
    (word16 (Packet.ModifyTTL pktV4).2.data 10 =
        ipv4RecomputeChecksum (Packet.ModifyTTL pktV4).2.data ∨
      (word16 (Packet.ModifyTTL pktV4).2.data 10 = 65535 ∧
        ipv4RecomputeChecksum (Packet.ModifyTTL pktV4).2.data = 0)) ∧
    ipv4ChecksumValid (Packet.ModifyTTL pktV4).2.data :=
  C1_amended_modifyTTL_checksum dataV4 pktV4 (by decide) (by decide) (by decide)
    (by decide) (by decide) (by decide)

end Tuno
